import Mathlib

/-
Shallow embedding of the data-feeding layer in `src/dataset.py`
(MinimumOccupancySampler, MultiBalancedSampler, pad, sequential_collate).

Modelling conventions, fixed once for the whole file:
  * A numpy random generator (`np.random.RandomState` as well as the global
    `np.random` state) is modelled as an infinite stream of naturals
    `Strm := Nat → Nat`; every generator call consumes one stream value per
    element it produces (shuffle of a list of length n consumes n values,
    `permutation n` consumes n values, `randint(b, size=k)` consumes k values).
    What matters for the claims is which generator each call reads:
    `__init__`'s shuffles and `__iter__`'s permutation read the sampler's own
    `random_state`, while `_reshuffle`'s `np.random.randint` reads the global
    generator, so the global stream is an explicit extra argument threaded
    through `reshuffle` and `iter`.
  * `RandomState.shuffle` is modelled as a stream-driven selection shuffle
    (`pickShuffle`): repeatedly remove the element at position
    `stream value mod remaining length`.  It is written with structural fuel
    so that concrete runs reduce by `rfl`/`decide`.
  * Python exceptions are modelled by `Option`: a call that raises returns
    `none` (`max` over an empty sequence, `np.random.randint` with an empty
    range, numpy shape-mismatch on slice assignment, indexing with an empty
    float index array, missing attribute access).
  * `np.empty` produces uninitialized storage; an uninitialized buffer cell is
    modelled as `none : Option Nat`, an initialized one as `some idx`.
  * Label matrices are dense lists of rows over `Nat` (0/1 entries);
    float arrays in `MultiBalancedSampler`, `pad` and `sequential_collate`
    are modelled over `ℚ`.
  * The number of classes `n_labels = labels.shape[1]` is read off as the
    length of the first row (a list of rows has no independent column count).
-/

abbrev Strm := Nat → Nat

/-- Advance a random stream by `k` consumed values. -/
def strmDrop (s : Strm) (k : Nat) : Strm := fun i => s (i + k)

/-- Fuelled selection shuffle: remove the element at position
`s 0 % length` and recurse.  Models `RandomState.shuffle` with the fuel set
to the list length (see `pickShuffle`). -/
def pickShuffleFuel : Nat → List Nat → Strm → List Nat
  | 0, _, _ => []
  | _ + 1, [], _ => []
  | fuel + 1, x :: xs, s =>
    let l := x :: xs
    let k := s 0 % l.length
    l.getD k 0 :: pickShuffleFuel fuel (l.eraseIdx k) (strmDrop s 1)

/-- Model of `self.random_state.shuffle(label_indexes)` (numpy in-place
shuffle, returned functionally): a permutation of the input driven by the
sampler's own random stream, consuming one value per element. -/
def pickShuffle (l : List Nat) (s : Strm) : List Nat := pickShuffleFuel l.length l s

/-- Model of `np.random.randint(bound, size=count)` on the global generator:
`none` models the `ValueError` numpy raises when the range `[0, bound)` is
empty, otherwise `count` draws, each `< bound`. -/
def randint (bound count : Nat) (g : Strm) : Option (List Nat) :=
  if bound = 0 then none
  else some ((List.range count).map (fun i => g i % bound))

/-- Model of Python's builtin `max` over a list: raises (`none`) on an empty
sequence. -/
def pyMax (l : List Nat) : Option Nat :=
  match l with
  | [] => none
  | x :: xs => some (xs.foldl max x)

/-- Indices of the examples active in class `c`:
`np.where(labels[:, c] == 1)[0]` (in ascending order, as numpy returns them). -/
def colActive (labels : List (List Nat)) (c : Nat) : List Nat :=
  (List.range labels.length).filter (fun i => (labels.getD i []).getD c 0 == 1)

/-- The per-class loop of `MinimumOccupancySampler.__init__`: for each class
in `cs`, shuffle (with the sampler's own stream) the indices active in that
class; returns the list of shuffled per-class index lists together with the
advanced stream. -/
def buildLists (labels : List (List Nat)) : List Nat → Strm → List (List Nat) × Strm
  | [], s => ([], s)
  | c :: cs, s =>
    let idxs := colActive labels c
    let sh := pickShuffle idxs s
    let rest := buildLists labels cs (strmDrop s idxs.length)
    (sh :: rest.1, rest.2)

/-- State of a constructed `MinimumOccupancySampler` (`src/dataset.py`,
lines 130-183).  `data_source` is stored as the list of its columns, each of
length `longest_seq`; an uninitialized (`np.empty`) cell is `none`.
`data_length` is `none` when `__init__`'s `if/elif` matched neither mode and
the attribute was never set. -/
structure MinimumOccupancySampler where
  labels : List (List Nat)
  label_to_idx_list : List (List Nat)
  label_to_length : List Nat
  longest_seq : Nat
  data_source : List (List (Option Nat))
  data_length : Option Nat
  random_state : Strm

/-- Model of `MinimumOccupancySampler.__init__`: shuffle each class's active
indices with the own generator, take `longest_seq = max(label_to_length)`
(raising, hence `none`, only when there are zero classes), allocate the
`[longest_seq, n_labels]` buffer with each column's first `count_c` cells
filled and the rest uninitialized, and set `data_length` according to
`sampling_mode` (left unset for an unrecognized mode). -/
def MinimumOccupancySampler.init (labels : List (List Nat)) (sampling_mode : String)
    (seed : Strm) : Option MinimumOccupancySampler :=
  let n_labels := (labels.headD []).length
  let built := buildLists labels (List.range n_labels) seed
  let ltil := built.1
  let ltl := ltil.map List.length
  match pyMax ltl with
  | none => none
  | some longest =>
    some { labels := labels
           label_to_idx_list := ltil
           label_to_length := ltl
           longest_seq := longest
           data_source := ltil.map (fun idxs =>
             idxs.map some ++ List.replicate (longest - idxs.length) none)
           data_length :=
             if sampling_mode = "same" then some labels.length
             else if sampling_mode = "over" then some (longest * n_labels)
             else none
           random_state := built.2 }

/-- The column loop of `MinimumOccupancySampler._reshuffle`: for each class
list `idxs` (paired with its current buffer column), draw
`longest - len(idxs)` positions with `np.random.randint` from the GLOBAL
stream `g` and overwrite the column's tail with the drawn elements of `idxs`;
the first `len(idxs)` cells are kept as they are. -/
def reshuffleGo : List (List Nat) → List (List (Option Nat)) → Nat → Strm →
    Option (List (List (Option Nat)) × Strm)
  | [], _, _, g => some ([], g)
  | idxs :: rest, cols, longest, g =>
    let leng := idxs.length
    let leftover := longest - leng
    (randint leng leftover g).bind (fun draws =>
      (reshuffleGo rest cols.tail longest (strmDrop g leftover)).bind (fun p =>
        some (((cols.headD []).take leng ++
                draws.map (fun k => some (idxs.getD k 0))) :: p.1, p.2)))

/-- Model of `MinimumOccupancySampler._reshuffle`; `g` is the global numpy
stream (the method calls `np.random.randint`, not `self.random_state`). -/
def MinimumOccupancySampler.reshuffle (st : MinimumOccupancySampler) (g : Strm) :
    Option (MinimumOccupancySampler × Strm) :=
  (reshuffleGo st.label_to_idx_list st.data_source st.longest_seq g).map
    (fun p => ({ st with data_source := p.1 }, p.2))

/-- Row `r` of the buffer, read across the stored columns
(`self.data_source[r]`); an uninitialized cell reads as `0` here, but every
theorem below only reads rows after a successful `_reshuffle`, which
initializes all cells. -/
def rowAt (cols : List (List (Option Nat))) (r : Nat) : List Nat :=
  cols.map (fun col => (col.getD r none).getD 0)

/-- Model of `MinimumOccupancySampler.__iter__`: reshuffle (global stream),
permute the buffer rows with the OWN generator, flatten row-major and
truncate to `data_length`.  Accessing the never-set `data_length` after an
unrecognized `sampling_mode` raises (`none`). -/
def MinimumOccupancySampler.iter (st : MinimumOccupancySampler) (g : Strm) :
    Option (List Nat × MinimumOccupancySampler × Strm) :=
  (st.reshuffle g).bind (fun p =>
    let st1 := p.1
    let n_samples := st1.longest_seq
    let random_indices := pickShuffle (List.range n_samples) st1.random_state
    let st2 := { st1 with random_state := strmDrop st1.random_state n_samples }
    let data := (random_indices.map (fun r => rowAt st1.data_source r)).flatten
    match st2.data_length with
    | none => none
    | some dl => some (data.take dl, st2, p.2))

/-- Model of `MinimumOccupancySampler.__len__` (`return self.data_length`);
`none` models the `AttributeError` when the attribute was never set. -/
def MinimumOccupancySampler.len (st : MinimumOccupancySampler) : Option Nat :=
  st.data_length

/-- Run `k` epochs: each epoch is one `__iter__` call with its own global
stream; returns the sampler state left behind after the last epoch. -/
def iterEpochs (st : MinimumOccupancySampler) : List Strm → Option MinimumOccupancySampler
  | [] => some st
  | g :: gs => (st.iter g).bind (fun o => iterEpochs o.2.1 gs)

/-- Construct a sampler and run one epoch, returning just the emitted index
stream (convenience wrapper used by concrete instantiations). -/
def initIterStream (labels : List (List Nat)) (mode : String) (s g : Strm) :
    Option (List Nat) :=
  (MinimumOccupancySampler.init labels mode s).bind
    (fun st => (st.iter g).map (fun o => o.1))

/-- The all-zero random stream (a concrete generator state). -/
def czero : Strm := fun _ => 0

/-- The all-one random stream (a different concrete generator state). -/
def cone : Strm := fun _ => 1

/-- Indices of the classes active in one label row:
`tuple(classes.compress(idx))` with `classes = np.arange(Y[0].shape[0])`
(truthy entries, i.e. nonzero). -/
def activeClasses (n : Nat) (row : List ℚ) : List Nat :=
  (List.range n).filter (fun c => decide (row.getD c 0 ≠ 0))

/-- Per-class counts `np.sum(Y, axis=0)` of the dense label matrix. -/
def classCountsQ (Y : List (List ℚ)) : List ℚ :=
  (List.range (Y.headD []).length).map (fun c => (Y.map (fun row => row.getD c 0)).sum)

/-- Per-class weights of `MultiBalancedSampler.__init__`: invert the counts,
then normalize to sum one across classes. -/
def classWeightsQ (Y : List (List ℚ)) : List ℚ :=
  let raw := (classCountsQ Y).map (fun x => 1 / x)
  raw.map (fun w => w / raw.sum)

/-- Per-example weights of `MultiBalancedSampler.__init__`: the mean
(`np.mean`) of the normalized weights of the row's active classes. -/
def sampleWeightsQ (Y : List (List ℚ)) : List ℚ :=
  Y.map (fun row =>
    let ws := (activeClasses (Y.headD []).length row).map
      (fun c => (classWeightsQ Y).getD c 0)
    ws.sum / (ws.length : ℚ))

/-- State of a constructed `MultiBalancedSampler` (`src/dataset.py`,
lines 186-219): `self._weights`, `self._len`, `self._replacement`. -/
structure MultiBalancedSampler where
  weights : List ℚ
  num : Nat
  replacement : Bool

/-- Model of `MultiBalancedSampler.__init__` on a dense matrix.  `none`
models the `IndexError` numpy raises when some row has no active class
(`class_weights[np.array(())]` indexes with an empty float array; the sparse
branch and the `ndim` assert are outside this dense list model).
`num_samples` follows Python truthiness: `None` or `0` falls back to
`len(Y)`. -/
def MultiBalancedSampler.init (Y : List (List ℚ)) (replacement : Bool)
    (num_samples : Option Nat) : Option MultiBalancedSampler :=
  if Y.any (fun row => (activeClasses (Y.headD []).length row).isEmpty) then none
  else some
    { weights := sampleWeightsQ Y
      num := match num_samples with
             | some n => if n = 0 then Y.length else n
             | none => Y.length
      replacement := replacement }

/-- Construction without an explicit `replacement` argument: Python binds the
declared default `replacement=False`. -/
def MultiBalancedSampler.initDefault (Y : List (List ℚ)) (num_samples : Option Nat) :
    Option MultiBalancedSampler :=
  MultiBalancedSampler.init Y false num_samples

/-- The argument triple `(self._weights, self._len, self._replacement)` that
`MultiBalancedSampler.__iter__` passes to `torch.multinomial`
(the multinomial draw itself is an external randomized primitive). -/
def MultiBalancedSampler.iterCall (st : MultiBalancedSampler) : List ℚ × Nat × Bool :=
  (st.weights, st.num, st.replacement)

/-- A 2-D float tensor as a list of rows. -/
abbrev Mat := List (List ℚ)

/-- One collated example tuple `(data, target_time, target_clip, fname)` as
produced by the dataset classes. -/
abbrev BItem := Mat × Mat × (ℚ × ℚ) × String

/-- The padded copy of one sequence inside the zero-filled
`[batch, max_len, data_dim]` tensor of `pad`: rows below the true length are
the original rows, rows beyond it keep the fill value. -/
def padRow (t : Mat) (maxLen d : Nat) (pv : ℚ) : Mat :=
  (List.range maxLen).map (fun r => if r < t.length then t.getD r [] else List.replicate d pv)

/-- Model of `pad(tensorlist, padding_value)` (`src/dataset.py`, 239-251):
`none` models `np.max` raising on an empty batch and the shape-mismatch error
of the slice assignment `out_tensor[i, :length, ...] = tensor[:length, ...]`
when some row's width differs from `data_dim = tensorlist[0].shape[-1]`. -/
def pad (tensorlist : List Mat) (padding_value : ℚ) : Option (List Mat × List Nat) :=
  match tensorlist with
  | [] => none
  | t0 :: _ =>
    let lengths := tensorlist.map List.length
    let max_len := lengths.foldl max 0
    let data_dim := (t0.headD []).length
    if tensorlist.all (fun t => t.all (fun row => row.length == data_dim)) then
      some (tensorlist.map (fun t => padRow t max_len data_dim padding_value), lengths)
    else none

/-- Model of `sequential_collate(batches)` (`src/dataset.py`, 254-261):
unzip, pad data and frame targets, stack clip targets, assert that the two
length vectors have equal SHAPE (`lengths_data.shape == lengths_tar.shape`),
and return `(data, targets_time, targets_clip, fnames, lengths_tar)`. -/
def sequential_collate (batches : List BItem) :
    Option (List Mat × List Mat × List (ℚ × ℚ) × List String × List Nat) :=
  let data := batches.map (fun b => b.1)
  let targets_time := batches.map (fun b => b.2.1)
  let targets_clip := batches.map (fun b => b.2.2.1)
  let fnames := batches.map (fun b => b.2.2.2)
  (pad data 0).bind (fun pd =>
    (pad targets_time 0).bind (fun pt =>
      if pd.2.length = pt.2.length then
        some (pd.1, pt.1, targets_clip, fnames, pt.2)
      else none))

/-- Re-inserting the selected element in front of the list with that element
removed is a permutation of the original list. -/
theorem cons_getD_eraseIdx_perm (l : List Nat) (k : Nat) (hk : k < l.length) :
    List.Perm (l.getD k 0 :: l.eraseIdx k) l := by
  induction l generalizing k with
  | nil => simp at hk
  | cons a t ih =>
    cases k with
    | zero => simp
    | succ k' =>
      have hk' : k' < t.length := Nat.lt_of_succ_lt_succ hk
      have h1 : List.Perm (t.getD k' 0 :: a :: t.eraseIdx k')
          (a :: t.getD k' 0 :: t.eraseIdx k') := List.Perm.swap a (t.getD k' 0) _
      have h2 : List.Perm (a :: t.getD k' 0 :: t.eraseIdx k') (a :: t) :=
        List.Perm.cons a (ih k' hk')
      simpa using h1.trans h2

/-- With enough fuel, the selection shuffle permutes its input. -/
theorem pickShuffleFuel_perm (fuel : Nat) (l : List Nat) (s : Strm)
    (h : l.length ≤ fuel) : List.Perm (pickShuffleFuel fuel l s) l := by
  induction fuel generalizing l s with
  | zero =>
    have : l = [] := List.eq_nil_of_length_eq_zero (Nat.le_zero.mp h)
    subst this; simp [pickShuffleFuel]
  | succ fuel ih =>
    cases l with
    | nil => simp [pickShuffleFuel]
    | cons x xs =>
      have hpos : 0 < (x :: xs).length := by simp
      have hk : s 0 % (x :: xs).length < (x :: xs).length := Nat.mod_lt _ hpos
      have hlen : ((x :: xs).eraseIdx (s 0 % (x :: xs).length)).length ≤ fuel := by
        rw [List.length_eraseIdx_of_lt hk]
        exact Nat.le_of_succ_le_succ (by simpa using h)
      have hrec := ih ((x :: xs).eraseIdx (s 0 % (x :: xs).length)) (strmDrop s 1) hlen
      have hunfold : pickShuffleFuel (fuel + 1) (x :: xs) s =
          (x :: xs).getD (s 0 % (x :: xs).length) 0 ::
            pickShuffleFuel fuel ((x :: xs).eraseIdx (s 0 % (x :: xs).length))
              (strmDrop s 1) := rfl
      rw [hunfold]
      exact (List.Perm.cons _ hrec).trans (cons_getD_eraseIdx_perm _ _ hk)

/-- The modelled `shuffle` permutes its input. -/
theorem pickShuffle_perm (l : List Nat) (s : Strm) : List.Perm (pickShuffle l s) l :=
  pickShuffleFuel_perm l.length l s (Nat.le_refl _)

/-- The modelled `shuffle` preserves length. -/
theorem pickShuffle_length (l : List Nat) (s : Strm) :
    (pickShuffle l s).length = l.length :=
  (pickShuffle_perm l s).length_eq

/-- Members of the shuffled list are members of the input. -/
theorem mem_pickShuffle (l : List Nat) (s : Strm) (x : Nat)
    (hx : x ∈ pickShuffle l s) : x ∈ l :=
  ((pickShuffle_perm l s).mem_iff).mp hx

/-- Seed bound for the left max fold. -/
theorem le_foldl_max (xs : List Nat) (a : Nat) : a ≤ xs.foldl max a := by
  induction xs generalizing a with
  | nil => simp
  | cons x xs ih => exact Nat.le_trans (Nat.le_max_left a x) (ih (max a x))

/-- Every member bounds the left max fold from below. -/
theorem mem_le_foldl_max (xs : List Nat) (a x : Nat) (hx : x ∈ xs) :
    x ≤ xs.foldl max a := by
  induction xs generalizing a with
  | nil => cases hx
  | cons y ys ih =>
    cases hx with
    | head => exact Nat.le_trans (Nat.le_max_right a x) (le_foldl_max ys (max a x))
    | tail _ h => exact ih (max a y) h

/-- Python's `max` bounds every list member from above. -/
theorem pyMax_ge (l : List Nat) (m : Nat) (h : pyMax l = some m) :
    ∀ x ∈ l, x ≤ m := by
  cases l with
  | nil => simp [pyMax] at h
  | cons a t =>
    intro x hx
    have hm : t.foldl max a = m := by simpa [pyMax] using h
    cases hx with
    | head => exact hm ▸ le_foldl_max t a
    | tail _ hxt => exact hm ▸ mem_le_foldl_max t a x hxt

/-- Python's `max` raises exactly on the empty sequence. -/
theorem pyMax_eq_none_iff (l : List Nat) : pyMax l = none ↔ l = [] := by
  cases l <;> simp [pyMax]

/-- Characterization of the active-index column. -/
theorem mem_colActive (labels : List (List Nat)) (c i : Nat) :
    i ∈ colActive labels c ↔ i < labels.length ∧ (labels.getD i []).getD c 0 = 1 := by
  simp [colActive, List.mem_filter, List.mem_range]

/-- The per-class construction loop produces, class by class, a permutation
of that class's active indices. -/
theorem buildLists_forall2 (labels : List (List Nat)) (cs : List Nat) (s : Strm) :
    List.Forall₂ (fun c l => List.Perm l (colActive labels c)) cs
      (buildLists labels cs s).1 := by
  induction cs generalizing s with
  | nil => simp [buildLists]
  | cons c cs ih =>
    exact List.Forall₂.cons (pickShuffle_perm _ _) (ih _)

/-- Reading a mapped list at an in-range position with any defaults. -/
theorem getD_map_lt {α β : Type} (f : α → β) (l : List α) (c : Nat) (hc : c < l.length)
    (d : β) (d' : α) : (l.map f).getD c d = f (l.getD c d') := by
  simp [List.getD_eq_getElem?_getD, List.getElem?_eq_getElem, hc]

/-- Reading a list at an in-range position ignores the default. -/
theorem getD_lt_eq_get {α : Type} (l : List α) (c : Nat) (hc : c < l.length) (d : α) :
    l.getD c d = l.get ⟨c, hc⟩ := by
  simp [List.getD_eq_getElem?_getD, List.getElem?_eq_getElem, hc]

/-- In-range `getD` values are members. -/
theorem getD_mem_of_lt {α : Type} (l : List α) (c : Nat) (hc : c < l.length) (d : α) :
    l.getD c d ∈ l := by
  rw [getD_lt_eq_get l c hc d]
  exact l.get_mem _ hc

/-- Unfolding of a successful `MinimumOccupancySampler.init`: the stored
fields in terms of the construction inputs. -/
theorem init_some (labels : List (List Nat)) (mode : String) (s : Strm)
    (st : MinimumOccupancySampler)
    (h : MinimumOccupancySampler.init labels mode s = some st) :
    st.labels = labels ∧
    st.label_to_idx_list = (buildLists labels (List.range (labels.headD []).length) s).1 ∧
    st.label_to_length = st.label_to_idx_list.map List.length ∧
    pyMax st.label_to_length = some st.longest_seq ∧
    st.data_source = st.label_to_idx_list.map (fun idxs =>
      idxs.map some ++ List.replicate (st.longest_seq - idxs.length) none) ∧
    st.data_length = (if mode = "same" then some labels.length
      else if mode = "over" then some (st.longest_seq * (labels.headD []).length)
      else none) := by
  simp only [MinimumOccupancySampler.init] at h
  cases hpm : pyMax (((buildLists labels (List.range (labels.headD []).length) s).1).map
      List.length) with
  | none => rw [hpm] at h; simp at h
  | some longest =>
    rw [hpm] at h
    simp only [] at h
    cases h
    exact ⟨rfl, rfl, rfl, hpm, rfl, rfl⟩

/-- A successful construction implies at least one class column. -/
theorem init_some_pos (labels : List (List Nat)) (mode : String) (s : Strm)
    (st : MinimumOccupancySampler)
    (h : MinimumOccupancySampler.init labels mode s = some st) :
    0 < (labels.headD []).length := by
  by_contra hn
  have h0 : (labels.headD []).length = 0 := Nat.eq_zero_of_not_pos hn
  unfold MinimumOccupancySampler.init at h
  rw [h0] at h
  simp [buildLists, pyMax] at h

/-- The construction-time invariant of the sampler state, also preserved by
every epoch: per-class lists permute the active-index columns, lengths are
bounded by `longest_seq`, and each buffer column is `longest_seq` long with
its head holding exactly the class's (shuffled) index list. -/
structure MOInv (labels : List (List Nat)) (st : MinimumOccupancySampler) : Prop where
  hlen : st.label_to_idx_list.length = (labels.headD []).length
  hperm : ∀ c, c < (labels.headD []).length →
    List.Perm (st.label_to_idx_list.getD c []) (colActive labels c)
  hbound : ∀ c, c < (labels.headD []).length →
    (st.label_to_idx_list.getD c []).length ≤ st.longest_seq
  hds_len : st.data_source.length = (labels.headD []).length
  hcol_len : ∀ c, c < (labels.headD []).length →
    (st.data_source.getD c []).length = st.longest_seq
  hcol_head : ∀ c, c < (labels.headD []).length →
    (st.data_source.getD c []).take (st.label_to_idx_list.getD c []).length =
      (st.label_to_idx_list.getD c []).map some

/-- A successful construction establishes the sampler invariant. -/
theorem init_inv (labels : List (List Nat)) (mode : String) (s : Strm)
    (st : MinimumOccupancySampler)
    (h : MinimumOccupancySampler.init labels mode s = some st) : MOInv labels st := by
  obtain ⟨-, hltil, hltl, hpm, hds, -⟩ := init_some labels mode s st h
  have hF2 := buildLists_forall2 labels (List.range (labels.headD []).length) s
  have hlenB : st.label_to_idx_list.length = (labels.headD []).length := by
    rw [hltil]
    have := hF2.length_eq
    simpa using this.symm
  have hperm : ∀ c, c < (labels.headD []).length →
      List.Perm (st.label_to_idx_list.getD c []) (colActive labels c) := by
    intro c hc
    have hc2 : c < st.label_to_idx_list.length := hlenB ▸ hc
    have hc1 : c < (List.range (labels.headD []).length).length := by simpa using hc
    have hc2' : c < ((buildLists labels (List.range (labels.headD []).length) s).1).length := by
      rw [← hltil]; exact hc2
    have hg := hF2.get hc1 hc2'
    have hr : (List.range (labels.headD []).length).get ⟨c, hc1⟩ = c := by
      simp [List.get_eq_getElem]
    rw [hr] at hg
    rw [hltil, getD_lt_eq_get _ c hc2' []]
    exact hg
  have hbound : ∀ c, c < (labels.headD []).length →
      (st.label_to_idx_list.getD c []).length ≤ st.longest_seq := by
    intro c hc
    have hc2 : c < st.label_to_idx_list.length := hlenB ▸ hc
    have hcm : c < st.label_to_length.length := by
      rw [hltl, List.length_map]; exact hc2
    have hmem : st.label_to_length.getD c 0 ∈ st.label_to_length :=
      getD_mem_of_lt _ _ hcm _
    have hval : st.label_to_length.getD c 0 = (st.label_to_idx_list.getD c []).length := by
      rw [hltl]; exact getD_map_lt List.length st.label_to_idx_list c hc2 0 []
    exact hval ▸ pyMax_ge _ _ hpm _ hmem
  refine ⟨hlenB, hperm, hbound, ?_, ?_, ?_⟩
  · rw [hds, List.length_map]; exact hlenB
  · intro c hc
    have hc2 : c < st.label_to_idx_list.length := hlenB ▸ hc
    rw [hds, getD_map_lt _ st.label_to_idx_list c hc2 [] []]
    simp only [List.length_append, List.length_map, List.length_replicate]
    have := hbound c hc
    omega
  · intro c hc
    have hc2 : c < st.label_to_idx_list.length := hlenB ▸ hc
    rw [hds, getD_map_lt _ st.label_to_idx_list c hc2 [] []]
    exact List.take_left' (by simp)

/-- Reading an appended list within the left part. -/
theorem getD_append_left {α : Type} (l₁ l₂ : List α) (n : Nat) (h : n < l₁.length)
    (d : α) : (l₁ ++ l₂).getD n d = l₁.getD n d := by
  simp [List.getD_eq_getElem?_getD, List.getElem?_append_left h]

/-- Reading an appended list within the right part. -/
theorem getD_append_right {α : Type} (l₁ l₂ : List α) (n : Nat) (h : l₁.length ≤ n)
    (d : α) : (l₁ ++ l₂).getD n d = l₂.getD (n - l₁.length) d := by
  simp [List.getD_eq_getElem?_getD, List.getElem?_append_right h]

/-- `randint` on a nonempty range succeeds with the mapped draws. -/
theorem randint_some (bound count : Nat) (g : Strm) (h : bound ≠ 0) :
    randint bound count g =
      some ((List.range count).map (fun i => g i % bound)) := by
  simp [randint, h]

/-- Every draw of a successful `randint` is below the bound. -/
theorem randint_draw_lt (bound count : Nat) (g : Strm) (h : bound ≠ 0) (k : Nat)
    (hk : k < count) :
    ((List.range count).map (fun i => g i % bound)).getD k 0 < bound := by
  have hk' : k < (List.range count).length := by simpa using hk
  rw [getD_map_lt _ _ k hk' 0 0]
  exact Nat.mod_lt _ (Nat.pos_of_ne_zero h)

/-- Specification of the `_reshuffle` column loop: when every class list is
nonempty, the loop succeeds, and every resulting column has full length,
keeps the class's (construction-time) index list as its head, and holds only
initialized cells whose values come from that class's index list. -/
theorem reshuffleGo_spec (lists : List (List Nat)) (cols : List (List (Option Nat)))
    (longest : Nat) (g : Strm)
    (hne : ∀ idxs ∈ lists, idxs ≠ [])
    (hlen : cols.length = lists.length)
    (hcl : ∀ k, k < lists.length → (cols.getD k []).length = longest)
    (hbound : ∀ idxs ∈ lists, idxs.length ≤ longest)
    (hhead : ∀ k, k < lists.length →
      (cols.getD k []).take (lists.getD k []).length = (lists.getD k []).map some) :
    ∃ cols' g', reshuffleGo lists cols longest g = some (cols', g') ∧
      cols'.length = lists.length ∧
      ∀ k, k < lists.length →
        (cols'.getD k []).length = longest ∧
        (cols'.getD k []).take (lists.getD k []).length = (lists.getD k []).map some ∧
        ∀ r, r < longest →
          ∃ v, (cols'.getD k []).getD r none = some v ∧ v ∈ lists.getD k [] := by
  induction lists generalizing cols g with
  | nil =>
    refine ⟨[], g, rfl, rfl, ?_⟩
    intro k hk; cases hk
  | cons idxs rest ih =>
    cases cols with
    | nil => simp at hlen
    | cons c0 ct =>
      have hne0 : idxs ≠ [] := hne idxs (List.mem_cons_self _ _)
      have hleng : idxs.length ≠ 0 := fun h0 => hne0 (List.eq_nil_of_length_eq_zero h0)
      have hb0 : idxs.length ≤ longest := hbound idxs (List.mem_cons_self _ _)
      have hc00 : c0.length = longest := by
        have := hcl 0 (Nat.succ_pos _)
        simpa using this
      have hh0 : c0.take idxs.length = idxs.map some := by
        have := hhead 0 (Nat.succ_pos _)
        simpa using this
      obtain ⟨cols', g', hrec, hlen', hk'⟩ :=
        ih ct (strmDrop g (longest - idxs.length))
          (fun l hl => hne l (List.mem_cons_of_mem _ hl))
          (by simpa using hlen)
          (fun k hk => by
            have := hcl (k + 1) (Nat.succ_lt_succ hk)
            simpa using this)
          (fun l hl => hbound l (List.mem_cons_of_mem _ hl))
          (fun k hk => by
            have := hhead (k + 1) (Nat.succ_lt_succ hk)
            simpa using this)
      set draws := (List.range (longest - idxs.length)).map (fun i => g i % idxs.length)
        with hdraws
      have hdl : draws.length = longest - idxs.length := by simp [hdraws]
      refine ⟨(c0.take idxs.length ++ draws.map (fun k => some (idxs.getD k 0))) :: cols',
        g', ?_, ?_, ?_⟩
      · show reshuffleGo (idxs :: rest) (c0 :: ct) longest g = _
        simp only [reshuffleGo, randint_some idxs.length (longest - idxs.length) g hleng,
          Option.bind_some, List.tail_cons, List.headD_cons]
        rw [hrec]
        simp [hdraws]
      · simpa using congrArg Nat.succ hlen'
      · intro k hk
        cases k with
        | succ k =>
          have hk2 : k < rest.length := Nat.lt_of_succ_lt_succ hk
          have := hk' k hk2
          simpa using this
        | zero =>
          have htl : (c0.take idxs.length).length = idxs.length := by
            rw [List.length_take]
            omega
          refine ⟨?_, ?_, ?_⟩
          · simp only [List.getD_cons_zero, List.length_append, htl, List.length_map, hdl]
            omega
          · simp only [List.getD_cons_zero]
            rw [List.take_left' htl, hh0]
          · intro r hr
            simp only [List.getD_cons_zero]
            by_cases hcase : r < idxs.length
            · have hrt : r < (c0.take idxs.length).length := by omega
              rw [getD_append_left _ _ r hrt none, hh0]
              have hri : r < idxs.length := hcase
              have : (idxs.map some).getD r none = some (idxs.getD r 0) :=
                getD_map_lt some idxs r hri none 0
              exact ⟨idxs.getD r 0, this, getD_mem_of_lt idxs r hri 0⟩
            · have hge : (c0.take idxs.length).length ≤ r := by omega
              rw [getD_append_right _ _ r hge none]
              have hrl : r - (c0.take idxs.length).length <
                  (draws.map (fun k => some (idxs.getD k 0))).length := by
                simp only [List.length_map, hdl, htl]
                omega
              have hrl2 : r - (c0.take idxs.length).length < draws.length := by
                simpa using hrl
              rw [getD_map_lt _ draws _ hrl2 none 0]
              refine ⟨idxs.getD (draws.getD (r - (c0.take idxs.length).length) 0) 0,
                rfl, ?_⟩
              have hdlt : draws.getD (r - (c0.take idxs.length).length) 0 < idxs.length := by
                rw [hdraws]
                exact randint_draw_lt idxs.length (longest - idxs.length) g hleng _
                  (by rw [hdraws] at hrl2; simpa using hrl2)
              exact getD_mem_of_lt idxs _ hdlt 0

/-- If some class has an empty index list, the `_reshuffle` loop raises:
`np.random.randint` is called with an empty range. -/
theorem reshuffleGo_none (lists : List (List Nat)) (cols : List (List (Option Nat)))
    (longest : Nat) (g : Strm) (k : Nat) (hk : k < lists.length)
    (hempty : lists.getD k [] = []) :
    reshuffleGo lists cols longest g = none := by
  induction lists generalizing cols g k with
  | nil => cases hk
  | cons idxs rest ih =>
    cases k with
    | zero =>
      have h0 : idxs = [] := by simpa using hempty
      subst h0
      simp [reshuffleGo, randint]
    | succ k =>
      have hk2 : k < rest.length := Nat.lt_of_succ_lt_succ hk
      have hrec := ih cols.tail (strmDrop g (longest - idxs.length)) k hk2
        (by simpa using hempty)
      cases hri : randint idxs.length (longest - idxs.length) g with
      | none => simp [reshuffleGo, hri]
      | some d => simp [reshuffleGo, hri, hrec]

/-- Reading a take within range. -/
theorem getD_take_lt {α : Type} (l : List α) (n i : Nat) (hi : i < n) (d : α) :
    (l.take n).getD i d = l.getD i d := by
  simp [List.getD_eq_getElem?_getD, List.getElem?_take, hi]

/-- Flattening a list of equal-length lists multiplies the lengths. -/
theorem flatten_length_const {α : Type} (ls : List (List α)) (n : Nat)
    (h : ∀ l ∈ ls, l.length = n) : ls.flatten.length = ls.length * n := by
  induction ls with
  | nil => simp
  | cons a t ih =>
    have ha : a.length = n := h a (List.mem_cons_self _ _)
    have ht := ih (fun l hl => h l (List.mem_cons_of_mem _ hl))
    simp only [List.flatten_cons, List.length_append, ha, ht, List.length_cons]
    ring

/-- Specification of `_reshuffle` at the state level: under the invariant and
nonempty classes it succeeds, changes only `data_source`, preserves the
invariant, and leaves every buffer cell initialized with a value from the
corresponding class's index list. -/
theorem reshuffle_spec (labels : List (List Nat)) (st : MinimumOccupancySampler)
    (g : Strm) (inv : MOInv labels st)
    (hne : ∀ c, c < (labels.headD []).length → colActive labels c ≠ []) :
    ∃ st' g', st.reshuffle g = some (st', g') ∧
      st'.label_to_idx_list = st.label_to_idx_list ∧
      st'.label_to_length = st.label_to_length ∧
      st'.longest_seq = st.longest_seq ∧
      st'.data_length = st.data_length ∧
      st'.random_state = st.random_state ∧
      st'.labels = st.labels ∧
      MOInv labels st' ∧
      (∀ c, c < (labels.headD []).length → ∀ r, r < st.longest_seq →
        ∃ v, (st'.data_source.getD c []).getD r none = some v ∧
          v ∈ st.label_to_idx_list.getD c []) := by
  have hneL : ∀ idxs ∈ st.label_to_idx_list, idxs ≠ [] := by
    intro idxs hmem h0
    obtain ⟨⟨c, hc⟩, hget⟩ := List.mem_iff_get.mp hmem
    have hcn : c < (labels.headD []).length := inv.hlen ▸ hc
    have hperm := inv.hperm c hcn
    rw [getD_lt_eq_get _ c hc [], hget, h0] at hperm
    exact hne c hcn (List.eq_nil_of_length_eq_zero hperm.length_eq.symm)
  have hboundL : ∀ idxs ∈ st.label_to_idx_list, idxs.length ≤ st.longest_seq := by
    intro idxs hmem
    obtain ⟨⟨c, hc⟩, hget⟩ := List.mem_iff_get.mp hmem
    have hcn : c < (labels.headD []).length := inv.hlen ▸ hc
    have hb := inv.hbound c hcn
    rw [getD_lt_eq_get _ c hc [], hget] at hb
    exact hb
  obtain ⟨cols', g', hgo, hlen', hk'⟩ :=
    reshuffleGo_spec st.label_to_idx_list st.data_source st.longest_seq g hneL
      (inv.hds_len.trans inv.hlen.symm)
      (fun k hk => inv.hcol_len k (inv.hlen ▸ hk))
      hboundL
      (fun k hk => inv.hcol_head k (inv.hlen ▸ hk))
  refine ⟨{ st with data_source := cols' }, g', ?_, rfl, rfl, rfl, rfl, rfl, rfl, ?_, ?_⟩
  · unfold MinimumOccupancySampler.reshuffle
    rw [hgo]
    rfl
  · refine ⟨inv.hlen, inv.hperm, inv.hbound, ?_, ?_, ?_⟩
    · show cols'.length = _
      rw [hlen', inv.hlen]
    · intro c hc
      exact (hk' c (by rw [inv.hlen]; exact hc)).1
    · intro c hc
      exact (hk' c (by rw [inv.hlen]; exact hc)).2.1
  · intro c hc r hr
    exact (hk' c (by rw [inv.hlen]; exact hc)).2.2 r hr

/-- Specification of `__iter__` under the invariant: it succeeds, preserves
every field except the buffer tail and the own generator position, and the
emitted stream (a) has length `min data_length (longest_seq * n_labels)`,
(b) draws every element from some class's active indices, and (c) contains,
for every class index `c` below `data_length`, an element active in class `c`
(read off the first permuted buffer row).  The post-state buffer is fully
initialized with class-active values. -/
theorem iter_spec (labels : List (List Nat)) (st : MinimumOccupancySampler)
    (g : Strm) (dl : Nat) (inv : MOInv labels st)
    (hne : ∀ c, c < (labels.headD []).length → colActive labels c ≠ [])
    (hnl : 0 < (labels.headD []).length)
    (hdl : st.data_length = some dl) :
    ∃ stream st' g', st.iter g = some (stream, st', g') ∧
      st'.label_to_idx_list = st.label_to_idx_list ∧
      st'.label_to_length = st.label_to_length ∧
      st'.longest_seq = st.longest_seq ∧
      st'.data_length = st.data_length ∧
      st'.labels = st.labels ∧
      MOInv labels st' ∧
      stream.length = min dl (st.longest_seq * (labels.headD []).length) ∧
      (∀ x ∈ stream, ∃ c, c < (labels.headD []).length ∧ x ∈ colActive labels c) ∧
      (∀ c, c < (labels.headD []).length → c < dl →
        ∃ idx, idx ∈ stream ∧ idx ∈ colActive labels c) ∧
      (∀ c, c < (labels.headD []).length → ∀ r, r < st'.longest_seq →
        ∃ v, (st'.data_source.getD c []).getD r none = some v ∧
          v ∈ colActive labels c) := by
  obtain ⟨st1, g1, hresh, he1, he2, he3, he4, he5, he6, inv1, hfill⟩ :=
    reshuffle_spec labels st g inv hne
  have hlongpos : 0 < st.longest_seq := by
    have h0 := hne 0 hnl
    have hp := inv.hperm 0 hnl
    have hca : 0 < (colActive labels 0).length := List.length_pos.mpr h0
    have hb := inv.hbound 0 hnl
    have hl := hp.length_eq
    omega
  have hri_len : (pickShuffle (List.range st1.longest_seq) st1.random_state).length
      = st.longest_seq := by
    rw [pickShuffle_length]
    simp [he3]
  have hri_mem : ∀ r ∈ pickShuffle (List.range st1.longest_seq) st1.random_state,
      r < st.longest_seq := by
    intro r hr
    have := mem_pickShuffle _ _ r hr
    rw [List.mem_range, he3] at this
    exact this
  have hrow_len : ∀ row ∈ (pickShuffle (List.range st1.longest_seq)
      st1.random_state).map (fun r => rowAt st1.data_source r),
      row.length = (labels.headD []).length := by
    intro row hrow
    obtain ⟨r, -, rfl⟩ := List.mem_map.mp hrow
    show (st1.data_source.map _).length = _
    rw [List.length_map, inv1.hds_len]
  have hflat_len : ((pickShuffle (List.range st1.longest_seq)
      st1.random_state).map (fun r => rowAt st1.data_source r)).flatten.length =
      st.longest_seq * (labels.headD []).length := by
    rw [flatten_length_const _ _ hrow_len, List.length_map, hri_len]
  have hdl1 : st1.data_length = some dl := he4.trans hdl
  have hiter : st.iter g = some
      ((((pickShuffle (List.range st1.longest_seq) st1.random_state).map
          (fun r => rowAt st1.data_source r)).flatten).take dl,
        { st1 with random_state := strmDrop st1.random_state st1.longest_seq }, g1) := by
    unfold MinimumOccupancySampler.iter
    rw [hresh]
    show (some (st1, g1)).bind _ = _
    rw [Option.some_bind]
    simp only []
    have hproj : ({ st1 with random_state := strmDrop st1.random_state st1.longest_seq } : MinimumOccupancySampler).data_length = some dl := hdl1
    rw [hproj]
  refine ⟨_, _, _, hiter, he1, he2, he3, he4, he6, ?_, ?_, ?_, ?_, ?_⟩
  · exact ⟨inv1.hlen, inv1.hperm, inv1.hbound, inv1.hds_len, inv1.hcol_len,
      inv1.hcol_head⟩
  · rw [List.length_take, hflat_len]
  · intro x hx
    have hxf := List.mem_of_mem_take hx
    obtain ⟨row, hrow, hxr⟩ := List.mem_flatten.mp hxf
    obtain ⟨r, hrmem, rfl⟩ := List.mem_map.mp hrow
    obtain ⟨col, hcol, hxeq⟩ := List.mem_map.mp hxr
    obtain ⟨⟨c, hc⟩, hcget⟩ := List.mem_iff_get.mp hcol
    have hcn : c < (labels.headD []).length := inv1.hds_len ▸ hc
    have hrlt : r < st.longest_seq := hri_mem r hrmem
    obtain ⟨v, hv, hvmem⟩ := hfill c hcn r hrlt
    have hcol_eq : col = st1.data_source.getD c [] := by
      rw [getD_lt_eq_get _ c hc []]
      exact hcget.symm
    rw [hcol_eq, hv] at hxeq
    refine ⟨c, hcn, ?_⟩
    have hxv : x = v := by simpa using hxeq.symm
    rw [hxv]
    exact ((inv.hperm c hcn).mem_iff).mp hvmem
  · intro c hcn hcd
    cases hrieq : pickShuffle (List.range st1.longest_seq) st1.random_state with
    | nil =>
      rw [hrieq] at hri_len
      simp at hri_len
      omega
    | cons r0 rtail =>
      rw [← hrieq]
      have hr0lt : r0 < st.longest_seq :=
        hri_mem r0 (by rw [hrieq]; exact List.mem_cons_self _ _)
      obtain ⟨v, hv, hvmem⟩ := hfill c hcn r0 hr0lt
      have hrow0_len : (rowAt st1.data_source r0).length = (labels.headD []).length := by
        show (st1.data_source.map _).length = _
        rw [List.length_map, inv1.hds_len]
      have hstream_len :
          ((((pickShuffle (List.range st1.longest_seq) st1.random_state).map
            (fun r => rowAt st1.data_source r)).flatten).take dl).length =
          min dl (st.longest_seq * (labels.headD []).length) := by
        rw [List.length_take, hflat_len]
      have hcs : c < ((((pickShuffle (List.range st1.longest_seq) st1.random_state).map
          (fun r => rowAt st1.data_source r)).flatten).take dl).length := by
        rw [hstream_len]
        have hmul : (labels.headD []).length ≤
            st.longest_seq * (labels.headD []).length :=
          Nat.le_mul_of_pos_left _ hlongpos
        omega
      have hget : ((((pickShuffle (List.range st1.longest_seq) st1.random_state).map
          (fun r => rowAt st1.data_source r)).flatten).take dl).getD c 0 = v := by
        rw [getD_take_lt _ dl c hcd 0, hrieq]
        rw [List.map_cons, List.flatten_cons]
        rw [getD_append_left _ _ c (by rw [hrow0_len]; exact hcn) 0]
        have hcds : c < st1.data_source.length := by rw [inv1.hds_len]; exact hcn
        rw [show rowAt st1.data_source r0 =
          st1.data_source.map (fun col => (col.getD r0 none).getD 0) from rfl]
        rw [getD_map_lt _ _ c hcds 0 []]
        rw [hv]
        rfl
      refine ⟨v, ?_, ((inv.hperm c hcn).mem_iff).mp hvmem⟩
      rw [← hget]
      exact getD_mem_of_lt _ c hcs 0
  · intro c hcn r hr
    have hr' : r < st.longest_seq := by
      rw [← he3]
      exact hr
    obtain ⟨v, hv, hvmem⟩ := hfill c hcn r hr'
    exact ⟨v, hv, ((inv.hperm c hcn).mem_iff).mp hvmem⟩

/-- A successful `_reshuffle` changes only `data_source`. -/
theorem reshuffle_preserves (st : MinimumOccupancySampler) (g : Strm)
    (st1 : MinimumOccupancySampler) (g1 : Strm)
    (h : st.reshuffle g = some (st1, g1)) :
    st1.label_to_idx_list = st.label_to_idx_list ∧
    st1.longest_seq = st.longest_seq ∧
    st1.data_length = st.data_length ∧
    st1.random_state = st.random_state := by
  unfold MinimumOccupancySampler.reshuffle at h
  cases hgo : reshuffleGo st.label_to_idx_list st.data_source st.longest_seq g with
  | none => rw [hgo] at h; cases h
  | some p =>
    rw [hgo] at h
    simp only [Option.map_some'] at h
    cases h
    exact ⟨rfl, rfl, rfl, rfl⟩

/-- Running any number of epochs from an invariant state keeps the invariant
and leaves every construction-time field unchanged. -/
theorem iterEpochs_spec (labels : List (List Nat)) (st0 : MinimumOccupancySampler)
    (gs : List Strm) (st : MinimumOccupancySampler) (dl : Nat)
    (inv : MOInv labels st0)
    (hne : ∀ c, c < (labels.headD []).length → colActive labels c ≠ [])
    (hnl : 0 < (labels.headD []).length)
    (hdl : st0.data_length = some dl)
    (hreach : iterEpochs st0 gs = some st) :
    MOInv labels st ∧ st.label_to_idx_list = st0.label_to_idx_list ∧
      st.label_to_length = st0.label_to_length ∧
      st.longest_seq = st0.longest_seq ∧ st.data_length = st0.data_length ∧
      st.labels = st0.labels := by
  induction gs generalizing st0 with
  | nil =>
    have h0 : st = st0 := by
      have : some st0 = some st := hreach
      cases this
      rfl
    subst h0
    exact ⟨inv, rfl, rfl, rfl, rfl, rfl⟩
  | cons g gs ih =>
    obtain ⟨stream, st1, g1, hiter, f1, f2, f3, f4, f5, inv1, -, -, -, -⟩ :=
      iter_spec labels st0 g dl inv hne hnl hdl
    have hreach' : iterEpochs st1 gs = some st := by
      have hh : (st0.iter g).bind (fun o => iterEpochs o.2.1 gs) = some st := hreach
      rw [hiter] at hh
      simpa using hh
    obtain ⟨invf, e1, e2, e3, e4, e5⟩ := ih st1 inv1 (f4.trans hdl) hreach'
    exact ⟨invf, e1.trans f1, e2.trans f2, e3.trans f3, e4.trans f4, e5.trans f5⟩

/-- When every example row has at least one active class, the number of
examples is at most `longest_seq * n_labels` (the buffer holds every example
at least once, counting multiplicity by classes). -/
theorem data_samples_le (labels : List (List Nat)) (st : MinimumOccupancySampler)
    (inv : MOInv labels st)
    (hrows : ∀ i, i < labels.length → ∃ c, c < (labels.headD []).length ∧
      (labels.getD i []).getD c 0 = 1) :
    labels.length ≤ st.longest_seq * (labels.headD []).length := by
  have hsub : Finset.range labels.length ⊆
      (Finset.range (labels.headD []).length).biUnion
        (fun c => (colActive labels c).toFinset) := by
    intro i hi
    rw [Finset.mem_range] at hi
    obtain ⟨c, hc, hact⟩ := hrows i hi
    rw [Finset.mem_biUnion]
    exact ⟨c, Finset.mem_range.mpr hc,
      List.mem_toFinset.mpr ((mem_colActive labels c i).mpr ⟨hi, hact⟩)⟩
  have hcard := Finset.card_le_card hsub
  rw [Finset.card_range] at hcard
  have hsum : ∀ c ∈ Finset.range (labels.headD []).length,
      ((colActive labels c).toFinset).card ≤ st.longest_seq := by
    intro c hc
    rw [Finset.mem_range] at hc
    have hnodup : (colActive labels c).Nodup :=
      List.Nodup.filter _ (List.nodup_range _)
    rw [List.toFinset_card_of_nodup hnodup]
    have hpermlen := (inv.hperm c hc).length_eq
    have hb := inv.hbound c hc
    omega
  calc labels.length
      ≤ ((Finset.range (labels.headD []).length).biUnion
          (fun c => (colActive labels c).toFinset)).card := hcard
    _ ≤ ∑ c in Finset.range (labels.headD []).length,
          ((colActive labels c).toFinset).card := Finset.card_biUnion_le
    _ ≤ ∑ c in Finset.range (labels.headD []).length, st.longest_seq :=
          Finset.sum_le_sum hsum
    _ = (labels.headD []).length * st.longest_seq := by
          rw [Finset.sum_const, Finset.card_range, smul_eq_mul]
    _ = st.longest_seq * (labels.headD []).length := Nat.mul_comm _ _

/-- When `data_length` was never set, `__iter__` fails at the attribute
access, whatever the generator states. -/
theorem iter_none_of_data_length_none (st : MinimumOccupancySampler) (g : Strm)
    (h : st.data_length = none) : st.iter g = none := by
  unfold MinimumOccupancySampler.iter
  cases hr : st.reshuffle g with
  | none => rfl
  | some p =>
    obtain ⟨st1, g1⟩ := p
    obtain ⟨-, -, hdl, -⟩ := reshuffle_preserves st g st1 g1 hr
    rw [Option.some_bind]
    simp only []
    have hproj : ({ st1 with random_state := strmDrop st1.random_state st1.longest_seq } : MinimumOccupancySampler).data_length = none := hdl.trans h
    rw [hproj]

/-- When some class's index list is empty, `__iter__` fails inside
`_reshuffle` (empty `randint` range), whatever the generator states. -/
theorem iter_none_of_idx_empty (st : MinimumOccupancySampler) (g : Strm) (k : Nat)
    (hk : k < st.label_to_idx_list.length)
    (hempty : st.label_to_idx_list.getD k [] = []) : st.iter g = none := by
  unfold MinimumOccupancySampler.iter MinimumOccupancySampler.reshuffle
  rw [reshuffleGo_none st.label_to_idx_list st.data_source st.longest_seq g k hk hempty]
  rfl

/-- C5 (counterexample): a `sampling_mode` outside `{"same", "over"}` does
NOT fail at construction: `__init__` returns normally and merely leaves the
length attribute unset, contradicting the claim of a construction-time
configuration error. -/
theorem mo_bad_mode_init_succeeds_cex :
    (MinimumOccupancySampler.init [[1]] "foo" czero).isSome = true ∧
    (MinimumOccupancySampler.init [[1]] "foo" czero).map
      MinimumOccupancySampler.len = some none := by
  exact ⟨by decide, by decide⟩

/-- C5 (amended): constructing a `MinimumOccupancySampler` with a
`sampling_mode` outside `{"same", "over"}` succeeds but leaves `data_length`
unset; the configuration error only surfaces later, when `__len__` or
`__iter__` accesses the never-set attribute and fails. -/
theorem mo_bad_mode_unset_length (labels : List (List Nat)) (mode : String)
    (s : Strm) (st : MinimumOccupancySampler)
    (hinit : MinimumOccupancySampler.init labels mode s = some st)
    (hm1 : mode ≠ "same") (hm2 : mode ≠ "over") :
    st.data_length = none ∧ st.len = none ∧ ∀ g, st.iter g = none := by
  obtain ⟨-, -, -, -, -, hdl⟩ := init_some labels mode s st hinit
  rw [if_neg hm1, if_neg hm2] at hdl
  exact ⟨hdl, hdl, fun g => iter_none_of_data_length_none st g hdl⟩

/-- C5 (witness): at the concrete unrecognized mode `"foo"`, construction
returns a sampler whose `__len__` is unset and whose `__iter__` fails. -/
theorem mo_bad_mode_unset_length_case :
    (MinimumOccupancySampler.init [[1]] "foo" czero).map
      MinimumOccupancySampler.len = some none ∧
    (MinimumOccupancySampler.init [[1]] "foo" czero).bind
      (fun st => st.iter czero) = none := by
  cases hinit : MinimumOccupancySampler.init [[1]] "foo" czero with
  | none =>
    have hs : (MinimumOccupancySampler.init [[1]] "foo" czero).isSome = true := by decide
    rw [hinit] at hs
    simp at hs
  | some st =>
    obtain ⟨hdl, hlen, hiter⟩ :=
      mo_bad_mode_unset_length [[1]] "foo" czero st hinit (by decide) (by decide)
    constructor
    · rw [Option.map_some']
      rw [hlen]
    · rw [Option.some_bind, hiter czero]

/-- C6 (counterexample): a label matrix whose class column 1 has zero active
examples still constructs successfully — `__init__` does not raise, so the
claimed construction-time configuration error does not happen. -/
theorem mo_empty_class_init_succeeds_cex :
    (MinimumOccupancySampler.init [[1, 0], [1, 0]] "same" czero).isSome = true ∧
    colActive [[1, 0], [1, 0]] 1 = [] := by
  exact ⟨by decide, by decide⟩

/-- C6 (amended): a class column with zero active examples does not make
construction fail; instead, every subsequent `__iter__` fails inside
`_reshuffle`, where `np.random.randint` is called on the empty range. -/
theorem mo_empty_class_iter_fails (labels : List (List Nat)) (mode : String)
    (s : Strm) (st : MinimumOccupancySampler) (c : Nat)
    (hinit : MinimumOccupancySampler.init labels mode s = some st)
    (hc : c < (labels.headD []).length)
    (hempty : colActive labels c = []) :
    ∀ g, st.iter g = none := by
  have inv := init_inv labels mode s st hinit
  have hidx : st.label_to_idx_list.getD c [] = [] := by
    have hp := inv.hperm c hc
    rw [hempty] at hp
    exact List.Perm.eq_nil hp
  intro g
  exact iter_none_of_idx_empty st g c (by rw [inv.hlen]; exact hc) hidx

/-- C6 (witness): on the concrete matrix with an empty class column,
construction succeeds and the first `__iter__` fails. -/
theorem mo_empty_class_iter_fails_case :
    (MinimumOccupancySampler.init [[1, 0], [1, 0]] "same" czero).isSome = true ∧
    (MinimumOccupancySampler.init [[1, 0], [1, 0]] "same" czero).bind
      (fun st => st.iter czero) = none := by
  refine ⟨by decide, ?_⟩
  cases hinit : MinimumOccupancySampler.init [[1, 0], [1, 0]] "same" czero with
  | none =>
    have hs : (MinimumOccupancySampler.init [[1, 0], [1, 0]] "same" czero).isSome
        = true := by decide
    rw [hinit] at hs
    simp at hs
  | some st =>
    rw [Option.some_bind]
    exact mo_empty_class_iter_fails [[1, 0], [1, 0]] "same" czero st 1 hinit
      (by decide) (by decide) czero

/-- C1 (counterexample): take the matrix with rows `[1,1,0]` and `[0,0,1]`
(two examples, three classes; every row and every class nonempty).  In
`"same"` mode the emitted stream is truncated to the example count 2 and
equals `[0, 0]`; example 0 is not active in class 2, whose only active
example is 1, so class 2 is not represented — the claimed per-class coverage
fails for `"same"` mode. -/
theorem mo_same_mode_misses_class_cex :
    initIterStream [[1, 1, 0], [0, 0, 1]] "same" czero czero = some [0, 0] ∧
    colActive [[1, 1, 0], [0, 0, 1]] 0 = [0] ∧
    colActive [[1, 1, 0], [0, 0, 1]] 1 = [0] ∧
    colActive [[1, 1, 0], [0, 0, 1]] 2 = [1] ∧
    ([0, 0] : List Nat).filter
      (fun i => (colActive [[1, 1, 0], [0, 0, 1]] 2).contains i) = [] := by
  exact ⟨by decide, by decide, by decide, by decide, by decide⟩

/-- C1 (amended): for every label matrix in which every class has at least
one active example and every row at least one active class, every epoch's
emitted index stream contains, for every class, an index of an example
active in that class — in `"over"` mode always, and in `"same"` mode
provided the number of examples is at least the number of classes (the
counterexample shows the truncation to the example count can otherwise cut
off a class). -/
theorem mo_every_class_covered (labels : List (List Nat)) (mode : String)
    (s g : Strm) (st0 st st' : MinimumOccupancySampler) (gs : List Strm)
    (stream : List Nat) (g' : Strm)
    (hinit : MinimumOccupancySampler.init labels mode s = some st0)
    (hcls : ∀ c, c < (labels.headD []).length → colActive labels c ≠ [])
    (hrows : ∀ i, i < labels.length → ∃ c, c < (labels.headD []).length ∧
      (labels.getD i []).getD c 0 = 1)
    (hmode : mode = "over" ∨ (mode = "same" ∧
      (labels.headD []).length ≤ labels.length))
    (hreach : iterEpochs st0 gs = some st)
    (hiter : st.iter g = some (stream, st', g')) :
    ∀ c, c < (labels.headD []).length →
      ∃ idx, idx ∈ stream ∧ (labels.getD idx []).getD c 0 = 1 := by
  have hnl : 0 < (labels.headD []).length := init_some_pos labels mode s st0 hinit
  have inv0 := init_inv labels mode s st0 hinit
  have hlongpos : 0 < st0.longest_seq := by
    have h0 := hcls 0 hnl
    have hp := inv0.hperm 0 hnl
    have hca : 0 < (colActive labels 0).length := List.length_pos.mpr h0
    have hb := inv0.hbound 0 hnl
    have hl := hp.length_eq
    omega
  obtain ⟨-, -, -, -, -, hdlf⟩ := init_some labels mode s st0 hinit
  have hdl_ex : ∃ dl, st0.data_length = some dl ∧
      (labels.headD []).length ≤ dl := by
    cases hmode with
    | inl hov =>
      refine ⟨st0.longest_seq * (labels.headD []).length, ?_, ?_⟩
      · rw [hdlf, hov, if_neg (by decide), if_pos rfl]
      · exact Nat.le_mul_of_pos_left _ hlongpos
    | inr h =>
      exact ⟨labels.length, by rw [hdlf, h.1, if_pos rfl], h.2⟩
  obtain ⟨dl, hdl0, hnle⟩ := hdl_ex
  obtain ⟨inv, -, -, -, hdleq, -⟩ :=
    iterEpochs_spec labels st0 gs st dl inv0 hcls hnl hdl0 hreach
  obtain ⟨stream2, st'2, g'2, hiter2, -, -, -, -, -, -, -, -, hcov, -⟩ :=
    iter_spec labels st g dl inv hcls hnl (hdleq.trans hdl0)
  have hseq : stream2 = stream := by
    rw [hiter] at hiter2
    exact ((Prod.mk.injEq _ _ _ _).mp (Option.some.inj hiter2)).1.symm
  intro c hc
  obtain ⟨idx, hmem, hact⟩ := hcov c hc (Nat.lt_of_lt_of_le hc hnle)
  refine ⟨idx, hseq ▸ hmem, ?_⟩
  exact ((mem_colActive labels c idx).mp hact).2

/-- C1 (witness): on the 2-example, 2-class identity matrix in `"same"` mode
(example count equals class count) the first epoch's stream is `[0, 1]` and
the theorem yields, for each class, a stream element active in it. -/
theorem mo_every_class_covered_case :
    initIterStream [[1, 0], [0, 1]] "same" czero czero = some [0, 1] ∧
    (∀ c, c < 2 → ∃ idx, idx ∈ ([0, 1] : List Nat) ∧
      (([[1, 0], [0, 1]] : List (List Nat)).getD idx []).getD c 0 = 1) := by
  refine ⟨by decide, ?_⟩
  cases hinit : MinimumOccupancySampler.init [[1, 0], [0, 1]] "same" czero with
  | none =>
    have hs : (MinimumOccupancySampler.init [[1, 0], [0, 1]] "same" czero).isSome
        = true := by decide
    rw [hinit] at hs
    simp at hs
  | some st0 =>
    cases hiter : st0.iter czero with
    | none =>
      have hstream : initIterStream [[1, 0], [0, 1]] "same" czero czero
          = some [0, 1] := by decide
      rw [initIterStream, hinit, Option.some_bind, hiter] at hstream
      cases hstream
    | some out =>
      obtain ⟨stream, st', g'⟩ := out
      have hstream : initIterStream [[1, 0], [0, 1]] "same" czero czero
          = some [0, 1] := by decide
      rw [initIterStream, hinit, Option.some_bind, hiter] at hstream
      simp only [Option.map_some'] at hstream
      have hseq : stream = [0, 1] := Option.some.inj hstream
      intro c hc
      have hres := mo_every_class_covered [[1, 0], [0, 1]] "same" czero czero
        st0 st0 st' [] stream g' hinit (by decide) (by decide)
        (Or.inr ⟨rfl, by decide⟩) rfl hiter c hc
      exact hseq ▸ hres

/-- C7 (confirmed): with a valid `sampling_mode`, every class nonempty and
every row nonempty, `__len__` returns the same construction-time fixed value
after any number of epochs (`data_samples` in `"same"` mode,
`longest_seq * n_labels` in `"over"` mode), and every stream emitted by
`__iter__` has exactly `__len__` elements. -/
theorem mo_len_fixed_stream_len (labels : List (List Nat)) (mode : String)
    (s : Strm) (st0 st : MinimumOccupancySampler) (gs : List Strm)
    (hinit : MinimumOccupancySampler.init labels mode s = some st0)
    (hcls : ∀ c, c < (labels.headD []).length → colActive labels c ≠ [])
    (hrows : ∀ i, i < labels.length → ∃ c, c < (labels.headD []).length ∧
      (labels.getD i []).getD c 0 = 1)
    (hmode : mode = "same" ∨ mode = "over")
    (hreach : iterEpochs st0 gs = some st) :
    st.len = st0.len ∧
    st.len = some (if mode = "same" then labels.length
      else st0.longest_seq * (labels.headD []).length) ∧
    (∀ g, ∃ stream st' g', st.iter g = some (stream, st', g') ∧
      some stream.length = st.len) := by
  have hnl : 0 < (labels.headD []).length := init_some_pos labels mode s st0 hinit
  have inv0 := init_inv labels mode s st0 hinit
  obtain ⟨-, -, -, -, -, hdlf⟩ := init_some labels mode s st0 hinit
  cases hmode with
  | inl hsm =>
    subst hsm
    have hdl0 : st0.data_length = some labels.length := by
      rw [hdlf]
      simp
    obtain ⟨inv, -, -, hlong, hdleq, -⟩ :=
      iterEpochs_spec labels st0 gs st labels.length inv0 hcls hnl hdl0 hreach
    have hle := data_samples_le labels st0 inv0 hrows
    refine ⟨hdleq, ?_, ?_⟩
    · show st.data_length = _
      rw [hdleq, hdl0]
      simp
    · intro g
      obtain ⟨stream, st', g', hiter, -, -, -, -, -, -, hlen, -, -, -⟩ :=
        iter_spec labels st g labels.length inv hcls hnl (hdleq.trans hdl0)
      refine ⟨stream, st', g', hiter, ?_⟩
      have hmin : labels.length ≤ st.longest_seq * (labels.headD []).length := by
        rw [hlong]
        exact hle
      show some stream.length = st.data_length
      rw [hlen, min_eq_left hmin, hdleq, hdl0]
  | inr hov =>
    subst hov
    have hdl0 : st0.data_length =
        some (st0.longest_seq * (labels.headD []).length) := by
      rw [hdlf]
      simp
    obtain ⟨inv, -, -, hlong, hdleq, -⟩ :=
      iterEpochs_spec labels st0 gs st (st0.longest_seq * (labels.headD []).length)
        inv0 hcls hnl hdl0 hreach
    refine ⟨hdleq, ?_, ?_⟩
    · show st.data_length = _
      rw [hdleq, hdl0]
      simp
    · intro g
      obtain ⟨stream, st', g', hiter, -, -, -, -, -, -, hlen, -, -, -⟩ :=
        iter_spec labels st g (st0.longest_seq * (labels.headD []).length)
          inv hcls hnl (hdleq.trans hdl0)
      refine ⟨stream, st', g', hiter, ?_⟩
      show some stream.length = st.data_length
      rw [hlen, hlong, min_self, hdleq, hdl0]

/-- C7 (witness): on the 2-example, 2-class identity matrix in `"same"` mode,
`__len__` is 2 after construction and the first emitted stream `[0, 1]` has
exactly 2 elements. -/
theorem mo_len_fixed_stream_len_case :
    (MinimumOccupancySampler.init [[1, 0], [0, 1]] "same" czero).map
      MinimumOccupancySampler.len = some (some 2) ∧
    initIterStream [[1, 0], [0, 1]] "same" czero czero = some [0, 1] ∧
    ([0, 1] : List Nat).length = 2 := by
  refine ⟨?_, by decide, by decide⟩
  cases hinit : MinimumOccupancySampler.init [[1, 0], [0, 1]] "same" czero with
  | none =>
    have hs : (MinimumOccupancySampler.init [[1, 0], [0, 1]] "same" czero).isSome
        = true := by decide
    rw [hinit] at hs
    simp at hs
  | some st0 =>
    obtain ⟨-, h2, -⟩ := mo_len_fixed_stream_len [[1, 0], [0, 1]] "same" czero
      st0 st0 [] hinit (by decide) (by decide) (Or.inl rfl) rfl
    rw [Option.map_some', h2]
    simp

/-- C9 (code bug): `_reshuffle` draws its oversampling indices from the
GLOBAL numpy generator (`np.random.randint`), not from the sampler's own
seeded `random_state` used everywhere else.  Two samplers constructed from
the same label matrix with the same seed therefore emit different streams
when the global generator state differs at the corresponding `__iter__`
calls: on five examples in two classes (class 1 oversampled by one slot),
identical seeds give `[0, 3, 1, 4, 2, 3]` under one global state and
`[0, 3, 1, 4, 2, 4]` under another, so the sampler is not reproducible from
its own seed alone. -/
theorem mo_global_randomness_breaks_reproducibility :
    initIterStream [[1, 0], [1, 0], [1, 0], [0, 1], [0, 1]] "over" czero czero
      = some [0, 3, 1, 4, 2, 3] ∧
    initIterStream [[1, 0], [1, 0], [1, 0], [0, 1], [0, 1]] "over" czero cone
      = some [0, 3, 1, 4, 2, 4] ∧
    ([0, 3, 1, 4, 2, 3] : List Nat) ≠ [0, 3, 1, 4, 2, 4] := by
  exact ⟨by decide, by decide, by decide⟩

/-- C10 (counterexample): on the matrix with rows `[1,1]` and `[0,1]`
(class 0 has one active example, class 1 has two), the freshly constructed
buffer's column 0 has its row-1 cell uninitialized (`np.empty` storage), so
right after construction that position does not hold the index of an example
active in class 0 — the claimed buffer invariant is not established by
construction. -/
theorem mo_buffer_uninit_at_construction_cex :
    (MinimumOccupancySampler.init [[1, 1], [0, 1]] "same" czero).map
      (fun st => (st.data_source.getD 0 []).getD 1 (some 999)) = some none ∧
    colActive [[1, 1], [0, 1]] 0 = [0] ∧
    colActive [[1, 1], [0, 1]] 1 = [0, 1] := by
  exact ⟨by decide, by decide, by decide⟩

/-- C10 (amended): when every class has an active example, every index
emitted by `__iter__` (after any number of epochs) is a valid example index
below the row count; after the `_reshuffle` performed inside every
`__iter__`, every buffer cell of column `c` holds the index of an example
active in class `c`; at construction this holds for the first `count_c`
cells of each column `c`, while the oversampling tail is still uninitialized
(see the counterexample). -/
theorem mo_buffer_invariant (labels : List (List Nat)) (mode : String)
    (s g : Strm) (st0 st st' : MinimumOccupancySampler) (gs : List Strm)
    (stream : List Nat) (g' : Strm)
    (hinit : MinimumOccupancySampler.init labels mode s = some st0)
    (hcls : ∀ c, c < (labels.headD []).length → colActive labels c ≠ [])
    (hreach : iterEpochs st0 gs = some st)
    (hiter : st.iter g = some (stream, st', g')) :
    (∀ idx, idx ∈ stream → idx < labels.length) ∧
    (∀ c, c < (labels.headD []).length → ∀ r, r < st'.longest_seq →
      ∃ v, (st'.data_source.getD c []).getD r none = some v ∧
        (labels.getD v []).getD c 0 = 1) ∧
    (∀ c, c < (labels.headD []).length →
      ∀ r, r < (st0.label_to_idx_list.getD c []).length →
      ∃ v, (st0.data_source.getD c []).getD r none = some v ∧
        (labels.getD v []).getD c 0 = 1) := by
  have hnl : 0 < (labels.headD []).length := init_some_pos labels mode s st0 hinit
  have inv0 := init_inv labels mode s st0 hinit
  have hhead : ∀ c, c < (labels.headD []).length →
      ∀ r, r < (st0.label_to_idx_list.getD c []).length →
      ∃ v, (st0.data_source.getD c []).getD r none = some v ∧
        (labels.getD v []).getD c 0 = 1 := by
    intro c hc r hr
    obtain ⟨-, -, -, -, hds, -⟩ := init_some labels mode s st0 hinit
    have hc2 : c < st0.label_to_idx_list.length := inv0.hlen ▸ hc
    rw [hds, getD_map_lt _ _ c hc2 [] []]
    have hrm : r < (List.map some (st0.label_to_idx_list.getD c [])).length := by
      rw [List.length_map]
      exact hr
    rw [getD_append_left _ _ r hrm none, getD_map_lt some _ r hr none 0]
    refine ⟨(st0.label_to_idx_list.getD c []).getD r 0, rfl, ?_⟩
    have hv_mem := getD_mem_of_lt (st0.label_to_idx_list.getD c []) r hr 0
    have hvca := ((inv0.hperm c hc).mem_iff).mp hv_mem
    exact ((mem_colActive labels c _).mp hvca).2
  cases hdl0 : st0.data_length with
  | none =>
    cases gs with
    | nil =>
      have hst : some st0 = some st := hreach
      cases hst
      rw [iter_none_of_data_length_none st0 g hdl0] at hiter
      cases hiter
    | cons g0 gsr =>
      have h0 : st0.iter g0 = none := iter_none_of_data_length_none st0 g0 hdl0
      have hnone : iterEpochs st0 (g0 :: gsr) = none := by
        show (st0.iter g0).bind _ = none
        rw [h0]
        rfl
      rw [hreach] at hnone
      cases hnone
  | some dl =>
    obtain ⟨inv, -, -, -, hdleq, -⟩ :=
      iterEpochs_spec labels st0 gs st dl inv0 hcls hnl hdl0 hreach
    obtain ⟨stream2, st'2, g'2, hiter2, -, -, -, -, -, -, -, hmem, -, hbuf⟩ :=
      iter_spec labels st g dl inv hcls hnl (hdleq.trans hdl0)
    rw [hiter] at hiter2
    have hinj := Option.some.inj hiter2
    have e1 : stream = stream2 := congrArg Prod.fst hinj
    have e2 : st' = st'2 := congrArg (fun p => p.2.1) hinj
    refine ⟨?_, ?_, hhead⟩
    · intro idx hmemx
      obtain ⟨c, hc, hact⟩ := hmem idx (e1 ▸ hmemx)
      exact ((mem_colActive labels c idx).mp hact).1
    · intro c hc r hr
      have hr2 : r < st'2.longest_seq := by rw [← e2]; exact hr
      obtain ⟨v, hv, hvm⟩ := hbuf c hc r hr2
      rw [← e2] at hv
      exact ⟨v, hv, ((mem_colActive labels c v).mp hvm).2⟩

/-- C10 (witness): on the matrix with rows `[1,1]` and `[0,1]` in `"same"`
mode, the first epoch emits `[0, 0]` and every emitted index is a valid
example index below the row count 2. -/
theorem mo_buffer_invariant_case :
    initIterStream [[1, 1], [0, 1]] "same" czero czero = some [0, 0] ∧
    (∀ idx, idx ∈ ([0, 0] : List Nat) → idx < 2) := by
  refine ⟨by decide, ?_⟩
  cases hinit : MinimumOccupancySampler.init [[1, 1], [0, 1]] "same" czero with
  | none =>
    have hs : (MinimumOccupancySampler.init [[1, 1], [0, 1]] "same" czero).isSome
        = true := by decide
    rw [hinit] at hs
    simp at hs
  | some st0 =>
    cases hiter : st0.iter czero with
    | none =>
      have hstream : initIterStream [[1, 1], [0, 1]] "same" czero czero
          = some [0, 0] := by decide
      rw [initIterStream, hinit, Option.some_bind, hiter] at hstream
      cases hstream
    | some out =>
      obtain ⟨stream, st', g'⟩ := out
      have hstream : initIterStream [[1, 1], [0, 1]] "same" czero czero
          = some [0, 0] := by decide
      rw [initIterStream, hinit, Option.some_bind, hiter] at hstream
      simp only [Option.map_some'] at hstream
      have hseq : stream = [0, 0] := Option.some.inj hstream
      have hres := (mo_buffer_invariant [[1, 1], [0, 1]] "same" czero czero
        st0 st0 st' [] stream g' hinit (by decide) rfl hiter).1
      intro idx hmemx
      exact hres idx (by rw [hseq]; exact hmemx)

/-- C2 (counterexample): constructed without an explicit `replacement`
argument, the sampler stores the declared Python default
`replacement=False`, and `__iter__` passes `False` to `torch.multinomial` —
the default is sampling WITHOUT replacement, contradicting the claim. -/
theorem mbs_default_replacement_cex :
    (MultiBalancedSampler.initDefault [[1, 0], [0, 1]] none).map
      (fun st => st.replacement) = some false ∧
    (MultiBalancedSampler.initDefault [[1, 0], [0, 1]] none).map
      (fun st => st.iterCall.2.2) = some false := by
  exact ⟨by decide, by decide⟩

/-- C2 (amended): when `MultiBalancedSampler` is constructed without an
explicit `replacement` argument, the declared default `replacement=False` is
bound: every sampler so constructed stores `False` and its `__iter__` passes
`False` — weighted sampling without replacement — to `torch.multinomial`. -/
theorem mbs_default_no_replacement (Y : List (List ℚ)) (num_samples : Option Nat)
    (st : MultiBalancedSampler)
    (h : MultiBalancedSampler.initDefault Y num_samples = some st) :
    st.replacement = false ∧ st.iterCall.2.2 = false := by
  unfold MultiBalancedSampler.initDefault MultiBalancedSampler.init at h
  split at h
  · cases h
  · cases h
    exact ⟨rfl, rfl⟩

/-- C2 (witness): on a concrete 2-example matrix the default-constructed
sampler passes `False` for replacement. -/
theorem mbs_default_no_replacement_case :
    (MultiBalancedSampler.initDefault [[1, 0], [0, 1]] none).isSome = true ∧
    (MultiBalancedSampler.initDefault [[1, 0], [0, 1]] none).map
      (fun st => st.iterCall.2.2) = some false := by
  refine ⟨by decide, ?_⟩
  cases hinit : MultiBalancedSampler.initDefault [[1, 0], [0, 1]] none with
  | none =>
    have hs : (MultiBalancedSampler.initDefault [[1, 0], [0, 1]] none).isSome
        = true := by decide
    rw [hinit] at hs
    simp at hs
  | some st =>
    rw [Option.map_some',
      (mbs_default_no_replacement [[1, 0], [0, 1]] none st hinit).2]

/-- An out-of-range read with default 0 of a list of non-negatives is
non-negative. -/
theorem getD_nonneg_of_forall (l : List ℚ) (h : ∀ x ∈ l, 0 ≤ x) (c : Nat) :
    0 ≤ l.getD c 0 := by
  by_cases hc : c < l.length
  · exact h _ (getD_mem_of_lt l c hc 0)
  · rw [List.getD_eq_getElem?_getD, List.getElem?_eq_none (Nat.le_of_not_lt hc)]
    exact le_refl 0

/-- Entries of the label matrix read with default 0 are non-negative for a
0/1 matrix. -/
theorem entry_nonneg (Y : List (List ℚ))
    (h01 : ∀ row ∈ Y, ∀ x ∈ row, x = 0 ∨ x = 1)
    (row : List ℚ) (hrow : row ∈ Y) (c : Nat) : 0 ≤ row.getD c 0 := by
  apply getD_nonneg_of_forall
  intro x hx
  cases h01 row hrow x hx with
  | inl h => rw [h]
  | inr h => rw [h]; norm_num

/-- The normalized class weights of a 0/1 matrix are non-negative. -/
theorem classWeightsQ_nonneg (Y : List (List ℚ))
    (h01 : ∀ row ∈ Y, ∀ x ∈ row, x = 0 ∨ x = 1) :
    ∀ w ∈ classWeightsQ Y, 0 ≤ w := by
  have hcounts : ∀ x ∈ classCountsQ Y, 0 ≤ x := by
    intro x hx
    obtain ⟨c, -, rfl⟩ := List.mem_map.mp hx
    apply List.sum_nonneg
    intro v hv
    obtain ⟨row, hrowY, rfl⟩ := List.mem_map.mp hv
    exact entry_nonneg Y h01 row hrowY c
  have hraw : ∀ x ∈ (classCountsQ Y).map (fun x => 1 / x), 0 ≤ x := by
    intro x hx
    obtain ⟨v, hv, rfl⟩ := List.mem_map.mp hx
    exact one_div_nonneg.mpr (hcounts v hv)
  intro w hw
  unfold classWeightsQ at hw
  obtain ⟨r, hr, rfl⟩ := List.mem_map.mp hw
  exact div_nonneg (hraw r hr) (List.sum_nonneg hraw)

/-- C4 (counterexample): for the dense matrix with rows `[1,0]`, `[1,0]`,
`[0,1]` (no all-zero rows, both classes active somewhere), the stored
per-example weights are `[1/3, 1/3, 2/3]`, whose sum is `4/3 ≠ 1` — the
weights do not form a probability distribution. -/
theorem mbs_weights_sum_cex :
    (MultiBalancedSampler.init [[1, 0], [1, 0], [0, 1]] false none).map
      (fun st => st.weights.sum) = some (4 / 3 : ℚ) ∧
    (4 / 3 : ℚ) ≠ 1 := by
  constructor
  · norm_num [MultiBalancedSampler.init, sampleWeightsQ, classWeightsQ,
      classCountsQ, activeClasses, List.range_succ]
  · norm_num

/-- C4 (amended): for every dense 0/1 label matrix with no all-zero rows and
every class active in some example, the per-example sampling weights stored
at construction (each the mean of the normalized inverse-frequency weights
of the row's active classes) are all non-negative; their sum need not be 1
(see the counterexample). -/
theorem mbs_weights_nonneg (Y : List (List ℚ)) (replacement : Bool)
    (num_samples : Option Nat) (st : MultiBalancedSampler)
    (h01 : ∀ row ∈ Y, ∀ x ∈ row, x = 0 ∨ x = 1)
    (hrows : ∀ row ∈ Y, activeClasses (Y.headD []).length row ≠ [])
    (hcls : ∀ c, c < (Y.headD []).length → ∃ row ∈ Y, row.getD c 0 = 1)
    (hinit : MultiBalancedSampler.init Y replacement num_samples = some st) :
    ∀ w ∈ st.weights, 0 ≤ w := by
  have hw : st.weights = sampleWeightsQ Y := by
    unfold MultiBalancedSampler.init at hinit
    split at hinit
    · cases hinit
    · cases hinit
      rfl
  rw [hw]
  intro w hwmem
  obtain ⟨row, hrowY, rfl⟩ := List.mem_map.mp hwmem
  apply div_nonneg
  · apply List.sum_nonneg
    intro x hx
    obtain ⟨c, -, rfl⟩ := List.mem_map.mp hx
    exact getD_nonneg_of_forall _ (classWeightsQ_nonneg Y h01) c
  · exact Nat.cast_nonneg _

/-- C4 (witness): on the 2-example identity matrix the stored weights are
`[1/2, 1/2]` and the theorem yields their non-negativity. -/
theorem mbs_weights_nonneg_case :
    (MultiBalancedSampler.init [[1, 0], [0, 1]] false none).map
      (fun st => st.weights) = some [1 / 2, 1 / 2] ∧
    (∀ w, w ∈ ([1 / 2, 1 / 2] : List ℚ) → 0 ≤ w) := by
  have hmap : (MultiBalancedSampler.init [[1, 0], [0, 1]] false none).map
      (fun st => st.weights) = some [1 / 2, 1 / 2] := by
    norm_num [MultiBalancedSampler.init, sampleWeightsQ, classWeightsQ,
      classCountsQ, activeClasses, List.range_succ]
  refine ⟨hmap, ?_⟩
  cases hinit : MultiBalancedSampler.init [[1, 0], [0, 1]] false none with
  | none =>
    rw [hinit] at hmap
    cases hmap
  | some st =>
    rw [hinit, Option.map_some'] at hmap
    have hwv : st.weights = [1 / 2, 1 / 2] := Option.some.inj hmap
    have hres := mbs_weights_nonneg [[1, 0], [0, 1]] false none st
      (by decide) (by decide) (by decide) hinit
    intro w hwm
    exact hres w (by rw [hwv]; exact hwm)

/-- The padded copy of one sequence has `maxLen` rows. -/
theorem padRow_length (t : Mat) (m d : Nat) (pv : ℚ) :
    (padRow t m d pv).length = m := by
  simp [padRow]

/-- Row `j` of the padded copy: the original row below the true length, the
fill row beyond it. -/
theorem padRow_getD (t : Mat) (m d : Nat) (pv : ℚ) (j : Nat) (hj : j < m) :
    (padRow t m d pv).getD j [] =
      if j < t.length then t.getD j [] else List.replicate d pv := by
  unfold padRow
  have hj' : j < (List.range m).length := by simpa using hj
  rw [getD_map_lt _ _ j hj' [] 0]
  have hr : (List.range m).getD j 0 = j := by
    rw [getD_lt_eq_get _ _ hj' 0]
    simp
  rw [hr]

/-- Successful unfolding of `pad` on a non-empty batch with uniform row
width `d`: the output is the list of padded copies plus the length vector. -/
theorem pad_some (t0 : Mat) (rest : List Mat) (pv : ℚ) (d : Nat)
    (hdim : (t0.headD []).length = d)
    (hall : ∀ t ∈ t0 :: rest, ∀ row ∈ t, row.length = d) :
    pad (t0 :: rest) pv = some
      ((t0 :: rest).map (fun t =>
        padRow t (((t0 :: rest).map List.length).foldl max 0) d pv),
       (t0 :: rest).map List.length) := by
  have hcond : ((t0 :: rest).all
      (fun t => t.all (fun row => row.length == (t0.headD []).length))) = true := by
    rw [List.all_eq_true]
    intro t ht
    rw [List.all_eq_true]
    intro row hrow
    rw [beq_iff_eq, hdim]
    exact hall t ht row hrow
  simp only [pad]
  rw [if_pos hcond, hdim]

/-- C3 (counterexample): a one-example batch whose sequence has time length
3 but whose frame target has time length 2 does NOT make collation raise:
the assertion compares only the shapes of the two length vectors (both are
one-element vectors), so `sequential_collate` succeeds and returns the
target-derived length vector `[2]` while the data length is 3. -/
theorem collate_mismatch_succeeds_cex :
    sequential_collate [([[1], [1], [1]], [[0, 0], [0, 0]], (0, 0), "a")]
      = some ([[[1], [1], [1]]], [[[0, 0], [0, 0]]], [(0, 0)], ["a"], [2]) ∧
    (pad [[[1], [1], [1]]] 0).map (fun p => p.2) = some [3] ∧
    (pad [[[0, 0], [0, 0]]] 0).map (fun p => p.2) = some [2] ∧
    ([3] : List Nat) ≠ [2] := by
  exact ⟨rfl, rfl, rfl, by decide⟩

/-- C3 (amended): the assertion in `sequential_collate` compares only the
SHAPES of the two length vectors (`lengths_data.shape == lengths_tar.shape`),
and both are one-dimensional vectors of the batch size, so it always holds:
collation succeeds on every non-empty batch whose sequences share a feature
dimension and whose frame targets share a feature dimension, even when some
example's data and target time lengths differ, and the returned length
vector is the one computed from the frame targets. -/
theorem collate_assert_shape_only (batches : List BItem) (d dt : Nat)
    (hne : batches ≠ [])
    (hd0 : (((batches.map (fun b => b.1)).headD []).headD []).length = d)
    (hall : ∀ b ∈ batches, ∀ row ∈ b.1, row.length = d)
    (hdt0 : (((batches.map (fun b => b.2.1)).headD []).headD []).length = dt)
    (hallt : ∀ b ∈ batches, ∀ row ∈ b.2.1, row.length = dt) :
    ∃ out, sequential_collate batches = some out ∧
      out.2.2.2.2 = (batches.map (fun b => b.2.1)).map List.length := by
  cases batches with
  | nil => exact absurd rfl hne
  | cons b bs =>
    simp only [List.map_cons, List.headD_cons] at hd0 hdt0
    have hallD : ∀ t ∈ b.1 :: bs.map (fun x => x.1), ∀ row ∈ t, row.length = d := by
      intro t ht row hrow
      rw [List.mem_cons] at ht
      cases ht with
      | inl h => exact hall b (List.mem_cons_self _ _) row (h ▸ hrow)
      | inr h =>
        obtain ⟨x, hx, rfl⟩ := List.mem_map.mp h
        exact hall x (List.mem_cons_of_mem _ hx) row hrow
    have hallT : ∀ t ∈ b.2.1 :: bs.map (fun x => x.2.1), ∀ row ∈ t,
        row.length = dt := by
      intro t ht row hrow
      rw [List.mem_cons] at ht
      cases ht with
      | inl h => exact hallt b (List.mem_cons_self _ _) row (h ▸ hrow)
      | inr h =>
        obtain ⟨x, hx, rfl⟩ := List.mem_map.mp h
        exact hallt x (List.mem_cons_of_mem _ hx) row hrow
    have hpd := pad_some b.1 (bs.map (fun x => x.1)) 0 d hd0 hallD
    have hpt := pad_some b.2.1 (bs.map (fun x => x.2.1)) 0 dt hdt0 hallT
    unfold sequential_collate
    simp only [List.map_cons]
    rw [hpd, Option.some_bind, hpt, Option.some_bind]
    rw [if_pos (by simp)]
    exact ⟨_, rfl, rfl⟩

/-- C3 (witness): the mismatched one-example batch (data time length 3,
target time length 2) satisfies the dimension hypotheses, and the theorem
yields a successful collation. -/
theorem collate_assert_shape_only_case :
    ([[1], [1], [1]] : Mat).length = 3 ∧
    ([[0, 0], [0, 0]] : Mat).length = 2 ∧
    (sequential_collate [([[1], [1], [1]], [[0, 0], [0, 0]], (0, 0), "a")]).isSome
      = true := by
  refine ⟨by decide, by decide, ?_⟩
  obtain ⟨out, hout, -⟩ := collate_assert_shape_only
    [([[1], [1], [1]], [[0, 0], [0, 0]], (0, 0), "a")] 1 2
    (by decide) (by decide) (by decide) (by decide) (by decide)
  rw [hout]
  rfl

/-- C8 (confirmed): for every non-empty batch whose sequences share the
feature dimension `d`, whose frame targets share the dimension `dt` and
match their sequences in time length, collation succeeds and returns: the
clip targets and identifiers in draw order, the length vector listing each
example's true time length in draw order, a data list of `batch` matrices
each with `max_len` rows (the maximum time length over the batch) of width
`d`, and, for every example, every data row at or beyond its true time
length equal to the all-zero padding row. -/
theorem collate_pads_and_lengths (batches : List BItem) (d dt : Nat)
    (hne : batches ≠ [])
    (hd0 : (((batches.map (fun b => b.1)).headD []).headD []).length = d)
    (hall : ∀ b ∈ batches, ∀ row ∈ b.1, row.length = d)
    (hdt0 : (((batches.map (fun b => b.2.1)).headD []).headD []).length = dt)
    (hallt : ∀ b ∈ batches, ∀ row ∈ b.2.1, row.length = dt)
    (htl : ∀ b ∈ batches, b.2.1.length = b.1.length) :
    ∃ data tt lengths,
      sequential_collate batches = some (data, tt,
        batches.map (fun b => b.2.2.1), batches.map (fun b => b.2.2.2), lengths) ∧
      lengths = batches.map (fun b => b.1.length) ∧
      data.length = batches.length ∧
      (∀ m ∈ data,
        m.length = ((batches.map (fun b => b.1)).map List.length).foldl max 0 ∧
        ∀ row ∈ m, row.length = d) ∧
      (∀ i j, i < batches.length →
        (batches.getD i ([], [], (0, 0), "")).1.length ≤ j →
        j < ((batches.map (fun b => b.1)).map List.length).foldl max 0 →
        (data.getD i []).getD j [] = List.replicate d 0) := by
  cases batches with
  | nil => exact absurd rfl hne
  | cons b bs =>
    simp only [List.map_cons, List.headD_cons] at hd0 hdt0
    have hallD : ∀ t ∈ b.1 :: bs.map (fun x => x.1), ∀ row ∈ t, row.length = d := by
      intro t ht row hrow
      rw [List.mem_cons] at ht
      cases ht with
      | inl h => exact hall b (List.mem_cons_self _ _) row (h ▸ hrow)
      | inr h =>
        obtain ⟨x, hx, rfl⟩ := List.mem_map.mp h
        exact hall x (List.mem_cons_of_mem _ hx) row hrow
    have hallT : ∀ t ∈ b.2.1 :: bs.map (fun x => x.2.1), ∀ row ∈ t,
        row.length = dt := by
      intro t ht row hrow
      rw [List.mem_cons] at ht
      cases ht with
      | inl h => exact hallt b (List.mem_cons_self _ _) row (h ▸ hrow)
      | inr h =>
        obtain ⟨x, hx, rfl⟩ := List.mem_map.mp h
        exact hallt x (List.mem_cons_of_mem _ hx) row hrow
    have hpd := pad_some b.1 (bs.map (fun x => x.1)) 0 d hd0 hallD
    have hpt := pad_some b.2.1 (bs.map (fun x => x.2.1)) 0 dt hdt0 hallT
    have hcollate : sequential_collate (b :: bs) = some
        ((b.1 :: bs.map (fun x => x.1)).map (fun t =>
          padRow t (((b.1 :: bs.map (fun x => x.1)).map List.length).foldl max 0)
            d 0),
         (b.2.1 :: bs.map (fun x => x.2.1)).map (fun t =>
          padRow t (((b.2.1 :: bs.map (fun x => x.2.1)).map
            List.length).foldl max 0) dt 0),
         (b :: bs).map (fun x => x.2.2.1), (b :: bs).map (fun x => x.2.2.2),
         (b.2.1 :: bs.map (fun x => x.2.1)).map List.length) := by
      unfold sequential_collate
      simp only [List.map_cons]
      rw [hpd, Option.some_bind, hpt, Option.some_bind]
      rw [if_pos (by simp)]
      rfl
    refine ⟨(b.1 :: bs.map (fun x => x.1)).map (fun t =>
        padRow t (((b.1 :: bs.map (fun x => x.1)).map List.length).foldl max 0) d 0),
      (b.2.1 :: bs.map (fun x => x.2.1)).map (fun t =>
        padRow t (((b.2.1 :: bs.map (fun x => x.2.1)).map List.length).foldl max 0)
          dt 0),
      (b.2.1 :: bs.map (fun x => x.2.1)).map List.length, ?_, ?_, ?_, ?_, ?_⟩
    · exact hcollate
    · show (b.2.1 :: bs.map (fun x => x.2.1)).map List.length
        = (b :: bs).map (fun x => x.1.length)
      have : (b :: bs).map (fun x => x.2.1) = b.2.1 :: bs.map (fun x => x.2.1) :=
        List.map_cons _ _ _
      rw [← this, List.map_map]
      exact List.map_congr_left (fun x hx => htl x hx)
    · simp
    · intro m hm
      obtain ⟨t, ht, rfl⟩ := List.mem_map.mp hm
      constructor
      · rw [padRow_length]
        simp only [List.map_cons]
      · intro row hrow
        unfold padRow at hrow
        obtain ⟨j, hj, rfl⟩ := List.mem_map.mp hrow
        rw [List.mem_range] at hj
        by_cases hjt : j < t.length
        · rw [if_pos hjt]
          exact hallD t ht _ (getD_mem_of_lt t j hjt [])
        · rw [if_neg hjt]
          exact List.length_replicate _ _
    · intro i j hi hle hlt
      have hlt2 : j < ((b.1 :: bs.map (fun x => x.1)).map List.length).foldl max 0 :=
        hlt
      have hi' : i < (b.1 :: bs.map (fun x => x.1)).length := by
        simpa using hi
      have hmaps : ((b.1 :: bs.map (fun x => x.1)).map (fun t =>
          padRow t (((b.1 :: bs.map (fun x => x.1)).map List.length).foldl max 0)
            d 0)).getD i []
          = padRow ((b.1 :: bs.map (fun x => x.1)).getD i [])
            (((b.1 :: bs.map (fun x => x.1)).map List.length).foldl max 0) d 0 :=
        getD_map_lt _ _ i hi' [] []
      rw [hmaps]
      have hdat : (b.1 :: bs.map (fun x => x.1)).getD i []
          = ((b :: bs).getD i ([], [], (0, 0), "")).1 := by
        have hcons : (b :: bs).map (fun x => x.1) = b.1 :: bs.map (fun x => x.1) :=
          List.map_cons _ _ _
        rw [← hcons]
        exact getD_map_lt _ _ i hi ([]) (([], [], (0, 0), ""))
      rw [padRow_getD _ _ _ _ j hlt2, hdat, if_neg (Nat.not_lt.mpr hle)]

/-- The concrete three-example batch of the padding scenario: sequence time
lengths 3, 7 and 5, feature dimension 4, target dimension 2, targets
matching the sequences in time length. -/
def c8batch : List BItem :=
  [(List.replicate 3 [1, 2, 3, 4], List.replicate 3 [0, 1], (0, 1), "a"),
   (List.replicate 7 [5, 6, 7, 8], List.replicate 7 [1, 0], (1, 0), "b"),
   (List.replicate 5 [9, 8, 7, 6], List.replicate 5 [1, 1], (1, 1), "c")]

/-- C8 (witness): on the concrete batch with lengths `[3, 7, 5]` and feature
dimension 4, collation succeeds, the length vector is `[3, 7, 5]`, `max_len`
is 7, every returned data matrix has 7 rows of width 4, and the rows beyond
each true length are the zero padding row. -/
theorem collate_pads_and_lengths_case :
    c8batch.map (fun b => b.1.length) = [3, 7, 5] ∧
    ((c8batch.map (fun b => b.1)).map List.length).foldl max 0 = 7 ∧
    (∃ data tt lengths,
      sequential_collate c8batch = some (data, tt,
        c8batch.map (fun b => b.2.2.1), c8batch.map (fun b => b.2.2.2), lengths) ∧
      lengths = c8batch.map (fun b => b.1.length) ∧
      data.length = c8batch.length ∧
      (∀ m ∈ data,
        m.length = ((c8batch.map (fun b => b.1)).map List.length).foldl max 0 ∧
        ∀ row ∈ m, row.length = 4) ∧
      (∀ i j, i < c8batch.length →
        (c8batch.getD i ([], [], (0, 0), "")).1.length ≤ j →
        j < ((c8batch.map (fun b => b.1)).map List.length).foldl max 0 →
        (data.getD i []).getD j [] = List.replicate 4 0)) := by
  refine ⟨by decide, by decide, ?_⟩
  exact collate_pads_and_lengths c8batch 4 2 (by decide) (by decide) (by decide)
    (by decide) (by decide) (by decide)
